import Mathlib

/-!
# humio-cli `search`: the result printers, the backoff poller and the job lifecycle

A shallow embedding of `src/cmd/search.go`.

* Go `map[string]interface{}` events are association lists; the order of the
  list is the order in which a `range` over the map yields the keys (Go leaves
  that order to the runtime, so every theorem that depends on it is stated for
  an arbitrary order).
* JSON numbers decode to finite `float64` values; the code only compares them
  with `<`, so they are carried as rationals (every finite float is one).
* The sink `io.Writer` is the list of write calls made on it, each kept with
  the arguments of the call; strings produced by `fmt.Sprint` and by
  `time.Format` are kept symbolic.
* `sort.Slice` is not stable and its algorithm is not fixed by its contract,
  so the event printer takes the sorting routine as an argument and theorems
  assume only the contract (a permutation, ordered for `less`).
-/

namespace HumioSearch

/-! ## Data model -/

/-- A decoded JSON value, the dynamic type behind `interface{}`: nil, `bool`,
`float64`, `string`, or an array or object (kept as its JSON text). -/
inductive Value
  | null
  | bool (b : Bool)
  | num (x : ℚ)
  | str (s : String)
  | other (json : String)
  deriving DecidableEq

/-- An event, `map[string]interface{}`. -/
abbrev Event := List (String × Value)

/-- The map index expression `e[k]`: the value, or the nil interface. -/
def Event.get (e : Event) (k : String) : Option Value := e.lookup k

/-- The keys of the map in `range` order. -/
def Event.keys (e : Event) : List String := e.map Prod.fst

/-- Modelled from the spec: the declaration of `api.QueryResultMetadata` is in
package `api`, which is not among the source files; these are the fields the
command reads, with the types the data model of the specification gives
them (`PollAfter` is a Go `int`, 64 bits wide; the conversion of line 200
wraps whatever its width). -/
structure QueryResultMetadata where
  IsAggregate : Bool
  PollAfter : Int
  TotalWork : Nat
  WorkDone : Nat
  deriving DecidableEq

/-- Modelled from the spec: the declaration of `api.QueryResult` is in package
`api`; these are the fields the command reads. -/
structure QueryResult where
  Done : Bool
  Events : List Event
  Metadata : QueryResultMetadata
  deriving DecidableEq

/-- The zero value `api.QueryResult{}`. -/
def QueryResult.zero : QueryResult :=
  { Done := false, Events := [], Metadata := ⟨false, 0, 0, 0⟩ }

/-- A string built by a library formatter, kept symbolic. -/
inductive Str
  | sprint (v : Option Value)
  | rfc3339Nano (ms : ℚ)
  | empty
  deriving DecidableEq

/-- One write call on the sink. -/
inductive Write
  | fprintf (format : String) (args : List Str)
  | fprintln (v : Option Value)
  | table (header : List String) (rows : List (List Str))
  | newline
  deriving DecidableEq

/-! ## The event list printer -/

/-- The type assertion `e["@timestamp"].(float64)`. -/
def timestampOf (e : Event) : Option ℚ :=
  match e.get "@timestamp" with
  | some (Value.num x) => some x
  | _ => none

/-- The type assertion `e["@id"].(string)`. -/
def stringId (e : Event) : Option String :=
  match e.get "@id" with
  | some (Value.str s) => some s
  | _ => none

/-- The comparison closure handed to `sort.Slice` (lines 283-297). -/
def less (ei ej : Event) : Bool :=
  match timestampOf ei, timestampOf ej with
  | some tsI, some tsJ => decide (tsI < tsJ)
  | _, none => false
  | none, some _ => true

/-- The contract of `sort.Slice(x, less)` for a comparison that is a strict
weak ordering, as `less` is: the result is a rearrangement of the input in
which no element is `less` than an earlier one. -/
def SortSliceSpec (sortSlice : (Event → Event → Bool) → List Event → List Event) : Prop :=
  ∀ l : List Event,
    (sortSlice less l).Perm l ∧ (sortSlice less l).Pairwise (fun a b => less b a = false)

/-- The inner loop of the insertion sort of package `sort`, on the
ordered prefix held last element first: the new element `x` moves left past
every element it is `less` than. -/
def insertLeft (lt : Event → Event → Bool) (x : Event) : List Event → List Event
  | [] => [x]
  | y :: ys => if lt x y then y :: insertLeft lt x ys else x :: y :: ys

/-- The insertion sort that `sort.Slice` runs on a slice shorter than twelve
elements; a reference sorting routine. -/
def insertionSort (lt : Event → Event → Bool) (l : List Event) : List Event :=
  (l.foldl (fun sorted x => insertLeft lt x sorted) []).reverse

/-- The state of `eventListPrinter`; `printedIds` holds the keys mapped to
`true`, `w` the writes made so far. -/
structure eventListPrinter where
  printedIds : List String
  printFields : List String
  w : List Write
  fmt : String
  deriving DecidableEq

/-- The table `fieldPrinters` applied to field `f` of event `m`, with the
fallback to `fmt.Sprint` (the closures built by `initPrintFunc`, lines 254-271). -/
def fieldPrinter (f : String) (m : Event) : Str :=
  if f = "@timestamp" then
    match m.get f with
    | some (Value.num fv) => Str.rfc3339Nano fv
    | v => Str.sprint v
  else Str.sprint (m.get f)

/-- The closure `printEventFunc` (lines 273-279): one `Fprintf` of the
template and a line break, with one argument per print field. -/
def eventListPrinter.printEventFunc (p : eventListPrinter) (m : Event) : Write :=
  Write.fprintf (p.fmt ++ "\n") (p.printFields.map (fun f => fieldPrinter f m))

/-- The loop of lines 299-307 over the sorted events: the identities
recorded so far, and the events handed to `printEventFunc`, in order. -/
def printLoop : List String → List Event → List String × List Event
  | ids, [] => (ids, [])
  | ids, e :: es =>
    match stringId e with
    | some id =>
      if id ∈ ids then printLoop ids es
      else ((printLoop (id :: ids) es).1, e :: (printLoop (id :: ids) es).2)
    | none => ((printLoop ids es).1, e :: (printLoop ids es).2)

/-- The events one call of `print` hands to `printEventFunc`, in order. -/
def eventListPrinter.emitted (sortSlice : (Event → Event → Bool) → List Event → List Event)
    (p : eventListPrinter) (result : QueryResult) : List Event :=
  (printLoop p.printedIds (sortSlice less result.Events)).2

/-- The method `eventListPrinter.print` (lines 282-308). -/
def eventListPrinter.print (sortSlice : (Event → Event → Bool) → List Event → List Event)
    (p : eventListPrinter) (result : QueryResult) : eventListPrinter :=
  { p with
    printedIds := (printLoop p.printedIds (sortSlice less result.Events)).1
    w := p.w ++ (p.emitted sortSlice result).map p.printEventFunc }

/-- The events handed to `printEventFunc` over `n` successive calls of
`print` with the same snapshot. -/
def eventListPrinter.emittedRepeat (sortSlice : (Event → Event → Bool) → List Event → List Event)
    (result : QueryResult) : Nat → eventListPrinter → List Event
  | 0, _ => []
  | n + 1, p => p.emitted sortSlice result ++ emittedRepeat sortSlice result n (p.print sortSlice result)

/-! ## The format compiler -/

/-- One attempt of the expression of line 234, an opening brace, one or more
characters other than the closing brace, a closing brace, at the head of the
text: the characters between the braces and the text after the match. The
repetition is greedy and what follows it must be the closing brace, so the
run is the longest one and shorter runs cannot match either. -/
def matchPlaceholder : List Char → Option (List Char × List Char)
  | [] => none
  | c :: t =>
    if c = '\x7b' then
      match t.dropWhile (fun x => x != '\x7d') with
      | [] => none
      | _ :: rest =>
        if t.takeWhile (fun x => x != '\x7d') = [] then none
        else some (t.takeWhile (fun x => x != '\x7d'), rest)
    else none

/-- A piece of the format string as `ReplaceAllStringFunc` reads it: a
character outside every match, or a match with the field name and the
modifier the callback of lines 235-246 splits it into. -/
inductive Segment
  | text (c : Char)
  | placeholder (field arg : List Char)
  deriving DecidableEq

/-- The body of the callback: `strings.Contains` and `strings.SplitN(field, ":", 2)`. -/
def splitField (body : List Char) : List Char × List Char :=
  if ':' ∈ body then
    (body.takeWhile (fun x => x != ':'), (body.dropWhile (fun x => x != ':')).tail)
  else (body, [])

/-- The leftmost, non-overlapping matches of the expression, in order, with
the characters between them. The first argument bounds the number of steps;
every step consumes a character, so the length of the text is enough. -/
def segments : Nat → List Char → List Segment
  | 0, _ => []
  | _ + 1, [] => []
  | n + 1, c :: t =>
    match matchPlaceholder (c :: t) with
    | some (body, rest) =>
      Segment.placeholder (splitField body).1 (splitField body).2 :: segments n rest
    | none => Segment.text c :: segments n t

/-- What a segment contributes to the template: the callback returns
`"%" + arg + "s"`, other text is copied. -/
def Segment.template : Segment → List Char
  | Segment.text c => [c]
  | Segment.placeholder _ arg => '%' :: (arg ++ ['s'])

/-- What a segment appends to `printFields`. -/
def Segment.field : Segment → Option String
  | Segment.text _ => none
  | Segment.placeholder f _ => some (String.mk f)

/-- The constructor `newEventListPrinter` (lines 228-250). -/
def newEventListPrinter (fmt : String) : eventListPrinter :=
  { printedIds := []
    w := []
    fmt := String.mk ((segments fmt.data.length fmt.data).flatMap Segment.template)
    printFields := (segments fmt.data.length fmt.data).filterMap Segment.field }

/-- Where the scan of a `Printf` format stands: in plain text, or inside a
directive after the percent sign; while the digits of a width or of a
precision are read, the number read so far. -/
inductive Scan
  | text
  | flags
  | width (num : Nat)
  | afterWidth
  | precision
  | digits (num : Nat)
  | verb
  deriving DecidableEq

/-- The flag characters of a `Printf` directive. -/
def isFlag (c : Char) : Bool := c = '#' || c = '0' || c = '+' || c = '-' || c = ' '

/-- The test `tooLarge` of package `fmt`: a width or precision beyond a
million. -/
def tooLarge (x : Nat) : Bool := decide (1000000 < x)

/-- The value of a decimal digit, `int(s[newi]-'0')` in `parsenum`. -/
def digitValue (c : Char) : Nat := c.toNat - 48

/-- The number of operands a `Printf` format absorbs, after `doPrintf` of
package `fmt`: a directive is a percent sign, flags, a width (digits or a
star), a precision (a dot, then digits or a star), a verb. A verb other than
the percent sign absorbs one operand and so does each star; a directive cut
off by the end of the format absorbs none. The digits are read by `parsenum`:
when a digit follows a number that is already `tooLarge`, `parsenum` gives up
and skips to the end of the format, so neither that directive nor anything
after it absorbs an operand. Explicit argument indexes in square brackets are
not part of the model. -/
def slotsFrom : Scan → List Char → Nat
  | _, [] => 0
  | Scan.text, c :: t => if c = '%' then slotsFrom Scan.flags t else slotsFrom Scan.text t
  | Scan.flags, c :: t =>
    if isFlag c then slotsFrom Scan.flags t
    else if c = '*' then 1 + slotsFrom Scan.afterWidth t
    else if c.isDigit then slotsFrom (Scan.width (digitValue c)) t
    else if c = '.' then slotsFrom Scan.precision t
    else (if c = '%' then 0 else 1) + slotsFrom Scan.text t
  | Scan.width num, c :: t =>
    if c.isDigit then
      if tooLarge num then 0 else slotsFrom (Scan.width (num * 10 + digitValue c)) t
    else if c = '.' then slotsFrom Scan.precision t
    else (if c = '%' then 0 else 1) + slotsFrom Scan.text t
  | Scan.afterWidth, c :: t =>
    if c = '.' then slotsFrom Scan.precision t
    else (if c = '%' then 0 else 1) + slotsFrom Scan.text t
  | Scan.precision, c :: t =>
    if c = '*' then 1 + slotsFrom Scan.verb t
    else if c.isDigit then slotsFrom (Scan.digits (digitValue c)) t
    else (if c = '%' then 0 else 1) + slotsFrom Scan.text t
  | Scan.digits num, c :: t =>
    if c.isDigit then
      if tooLarge num then 0 else slotsFrom (Scan.digits (num * 10 + digitValue c)) t
    else (if c = '%' then 0 else 1) + slotsFrom Scan.text t
  | Scan.verb, c :: t => (if c = '%' then 0 else 1) + slotsFrom Scan.text t

/-- The number of substitution slots of a `Printf` format. -/
def slots (format : String) : Nat := slotsFrom Scan.text format.data

/-- Width digits that `parsenum` reads to the end, `num` being the number
read before them: no digit follows a number that is already `tooLarge`. Any
width of up to seven digits is of this kind. -/
def widthFits : Nat → List Char → Bool
  | _, [] => true
  | num, c :: t => c.isDigit && !tooLarge num && widthFits (num * 10 + digitValue c) t

/-- A modifier of the documented kind: printf flags, then width digits that
`parsenum` reads to the end. -/
def widthModifier (arg : List Char) : Bool := widthFits 0 (arg.dropWhile isFlag)

/-- A segment that `Printf` reads as intended: text other than the percent
sign, or a placeholder with a width modifier. -/
def Segment.plain : Segment → Bool
  | Segment.text c => c != '%'
  | Segment.placeholder _ arg => widthModifier arg

/-- A placeholder of a format string as the specification writes it, `{name}`
or `{name:modifier}`, with the literal text that follows it. -/
structure Placeholder where
  name : List Char
  modifier : Option (List Char)
  literal : List Char

/-- The text of a placeholder with its braces. -/
def Placeholder.source (p : Placeholder) : List Char :=
  '\x7b' :: (p.name ++ ((match p.modifier with | some m => ':' :: m | none => []) ++ ('\x7d' :: p.literal)))

/-- The format string `L0 {n1[:m1]} L1 ... {nk[:mk]} Lk`. -/
def formatOf (l0 : List Char) (ps : List Placeholder) : String :=
  String.mk (l0 ++ ps.flatMap Placeholder.source)

/-- The template the specification gives for it, `L0 %m1s L1 ... %mks Lk`. -/
def templateOf (l0 : List Char) (ps : List Placeholder) : String :=
  String.mk (l0 ++ ps.flatMap (fun p => '%' :: (p.modifier.getD [] ++ ('s' :: p.literal))))

/-- The conditions of the shape: no brace in a literal; a name is not empty
and has no brace and no colon; a modifier has no closing brace. -/
def wellShaped (l0 : List Char) (ps : List Placeholder) : Prop :=
  (∀ c ∈ l0, c ≠ '\x7b' ∧ c ≠ '\x7d') ∧
  ∀ p ∈ ps, p.name ≠ [] ∧ (∀ c ∈ p.name, c ≠ '\x7b' ∧ c ≠ '\x7d' ∧ c ≠ ':') ∧
    (∀ c ∈ p.modifier.getD [], c ≠ '\x7d') ∧
    (∀ c ∈ p.literal, c ≠ '\x7b' ∧ c ≠ '\x7d')

instance (l0 : List Char) (ps : List Placeholder) : Decidable (wellShaped l0 ps) := by
  unfold wellShaped
  infer_instance

/-! ## The aggregate printer -/

/-- The state of `aggregatePrinter`. -/
structure aggregatePrinter where
  w : List Write
  columns : List String
  deriving DecidableEq

/-- The constructor `newAggregatePrinter`. -/
def newAggregatePrinter : aggregatePrinter := { w := [], columns := [] }

/-- The inner loop of lines 325-330 over the keys of one event: the column
list `f` and the keys of the local map `m`. -/
def scanKeys (fm : List String × List String) (keys : List String) : List String × List String :=
  keys.foldl (fun acc k => if k ∈ acc.2 then acc else (acc.1 ++ [k], k :: acc.2)) fm

/-- The outer loop of lines 324-331 over the events. -/
def scanEvents (fm : List String × List String) (events : List Event) : List String × List String :=
  events.foldl (fun acc e => scanKeys acc e.keys) fm

/-- A cell of the table (lines 353-358). -/
def cell (e : Event) (i : String) : Str :=
  match e.get i with
  | some v => Str.sprint (some v)
  | none => Str.empty

/-- The method `aggregatePrinter.print` (lines 321-365); `f` starts from
`p.columns` and `m` starts empty at every call. -/
def aggregatePrinter.print (p : aggregatePrinter) (result : QueryResult) : aggregatePrinter :=
  match (scanEvents (p.columns, []) result.Events).1, result.Events with
  | [], _ => { p with columns := [] }
  | [c], [e] => { w := p.w ++ [Write.fprintln (e.get c)], columns := [c] }
  | f, events =>
    { w := p.w ++ [Write.table f (events.map (fun e => f.map (cell e))), Write.newline]
      columns := f }

/-! ## The backoff poller -/

/-- An error value: `context.Canceled`, or an error of the API client. -/
inductive Err
  | canceled
  | transport (msg : String)
  deriving DecidableEq

/-- The conversion to a 64-bit signed integer and the arithmetic of
`time.Duration`, a count of nanoseconds in an `int64`: values wrap. -/
def wrapInt64 (x : Int) : Int := (x + 2 ^ 63) % 2 ^ 64 - 2 ^ 63

/-- The expression `time.Duration(pollAfter) * time.Millisecond` of line 200. -/
def millis (pollAfter : Int) : Int := wrapInt64 (wrapInt64 pollAfter * 1000000)

/-- The method `Time.Sub`: the difference of two instants in nanoseconds,
which saturates at the ends of the range of `time.Duration`. -/
def timeSub (t u : Int) : Int := max (-(2 ^ 63)) (min (2 ^ 63 - 1) (t - u))

/-- The zero `time.Time`, January 1 of year 1, in nanoseconds since the Unix
epoch; `nextPoll` of a poller built by the composite literal of lines 64-68. -/
def zeroTime : Int := -62135596800 * 1000000000

/-- The state of `queryJobPoller`; instants are nanoseconds since the Unix
epoch. The API client it holds is the environment of each call. -/
structure queryJobPoller where
  repository : String
  id : String
  nextPoll : Int
  deriving DecidableEq

/-- What the world does during one call of `WaitAndPollContext`: the clock
when the call starts, the instant at which the context is cancelled (if it
is), the case `select` takes when both are ready at once, what `PollContext`
returns if it is called, and the nanoseconds it takes. -/
structure PollEnv where
  now : Int
  cancelAt : Option Int
  timerFirst : Bool
  response : QueryResult × Option Err
  latency : Nat

/-- What a call of `WaitAndPollContext` leaves and returns, and the instant
at which it issued `PollContext`, if it did. -/
structure PollReturn where
  poller : queryJobPoller
  result : QueryResult
  err : Option Err
  polledAt : Option Int
  deriving DecidableEq

/-- The instant at which the channel of `time.After(q.nextPoll.Sub(time.Now()))`
delivers: at once for a duration that is not positive. -/
def queryJobPoller.wakeAt (q : queryJobPoller) (env : PollEnv) : Int :=
  env.now + max (timeSub q.nextPoll env.now) 0

/-- Whether `select` of lines 189-193 takes the case `ctx.Done()`: the
context is cancelled before the timer delivers, or at the same instant and
the runtime picks that case. -/
def queryJobPoller.cancelled (q : queryJobPoller) (env : PollEnv) : Bool :=
  match env.cancelAt with
  | none => false
  | some c =>
    decide (max c env.now < q.wakeAt env) ||
      (decide (max c env.now = q.wakeAt env) && !env.timerFirst)

/-- The method `queryJobPoller.WaitAndPollContext` (lines 188-203). -/
def queryJobPoller.WaitAndPollContext (q : queryJobPoller) (env : PollEnv) : PollReturn :=
  if q.cancelled env then
    { poller := q, result := QueryResult.zero, err := some Err.canceled, polledAt := none }
  else
    match env.response with
    | (result, some err) =>
      { poller := q, result := result, err := some err, polledAt := some (q.wakeAt env) }
    | (result, none) =>
      { poller := { q with nextPoll := q.wakeAt env + env.latency + millis result.Metadata.PollAfter }
        result := result, err := none, polledAt := some (q.wakeAt env) }

/-! ## The job lifecycle -/

/-- Modelled from the spec: the request `api.Query` of package `api`, with the
fields set at lines 47-52. -/
structure Query where
  QueryString : String
  Start : String
  End : String
  Live : Bool
  deriving DecidableEq

/-- A call on the job-control interface `client.QueryJobs()`. -/
inductive Call
  | create (repository : String) (query : Query)
  | poll (repository id : String)
  | delete (repository id : String)
  deriving DecidableEq

/-- The value behind the interface variable `printer` of lines 75-83. -/
inductive Printer
  | aggregate (p : aggregatePrinter)
  | eventList (p : eventListPrinter)
  deriving DecidableEq

/-- The call `printer.print(result)`. -/
def Printer.print (sortSlice : (Event → Event → Bool) → List Event → List Event) :
    Printer → QueryResult → Printer
  | Printer.aggregate p, result => Printer.aggregate (p.print result)
  | Printer.eventList p, result => Printer.eventList (p.print sortSlice result)

/-- The flags and arguments of the command. -/
structure SearchArgs where
  repository : String
  queryString : String
  start : String
  end_ : String
  live : Bool
  fmtStr : String

/-- What the world does during one run: the outcome of `Create`, the
environment of each successive call of `WaitAndPollContext`, and the error
`Delete` returns. -/
structure SearchEnv where
  create : Except Err String
  waits : List PollEnv
  deleteErr : Option Err

/-- What the function literal of lines 41-110 returns, with the job-control
calls it issued, in order, and the printer it used. -/
structure SearchReturn where
  err : Option Err
  calls : List Call
  printer : Option Printer
  deriving DecidableEq

/-- The job-control call a call of `WaitAndPollContext` issued, if any. -/
def pollCall (q : queryJobPoller) (r : PollReturn) : List Call :=
  match r.polledAt with
  | some _ => [Call.poll q.repository q.id]
  | none => []

/-- The loop of lines 99-106, taken in live mode; it ends only on an error.
The result is `none` when the listed environments run out first. -/
def liveLoop (sortSlice : (Event → Event → Bool) → List Event → List Event) :
    List PollEnv → queryJobPoller → Printer → List Call → Option SearchReturn
  | [], _, _, _ => none
  | env :: rest, q, printer, calls =>
    match (q.WaitAndPollContext env).err with
    | some err =>
      some { err := some err, calls := calls ++ pollCall q (q.WaitAndPollContext env)
             printer := some printer }
    | none =>
      liveLoop sortSlice rest (q.WaitAndPollContext env).poller
        (printer.print sortSlice (q.WaitAndPollContext env).result)
        (calls ++ pollCall q (q.WaitAndPollContext env))

/-- Lines 94-109: the last snapshot is printed, then the live loop runs or
the function returns nil. -/
def afterDone (sortSlice : (Event → Event → Bool) → List Event → List Event) (live : Bool)
    (waits : List PollEnv) (q : queryJobPoller) (result : QueryResult) (printer : Printer)
    (calls : List Call) : Option SearchReturn :=
  if live then liveLoop sortSlice waits q (printer.print sortSlice result) calls
  else some { err := none, calls := calls, printer := some (printer.print sortSlice result) }

/-- The loop of lines 86-92 and what follows it. -/
def untilDone (sortSlice : (Event → Event → Bool) → List Event → List Event) (live : Bool) :
    List PollEnv → queryJobPoller → QueryResult → Printer → List Call → Option SearchReturn
  | [], q, result, printer, calls =>
    if result.Done then afterDone sortSlice live [] q result printer calls else none
  | env :: rest, q, result, printer, calls =>
    if result.Done then afterDone sortSlice live (env :: rest) q result printer calls
    else
      match (q.WaitAndPollContext env).err with
      | some err =>
        some { err := some err, calls := calls ++ pollCall q (q.WaitAndPollContext env)
               printer := some printer }
      | none =>
        untilDone sortSlice live rest (q.WaitAndPollContext env).poller
          (q.WaitAndPollContext env).result printer
          (calls ++ pollCall q (q.WaitAndPollContext env))

/-- The composite literal of lines 64-68: `nextPoll` is the zero time. -/
def newPoller (repository id : String) : queryJobPoller :=
  { repository := repository, id := id, nextPoll := zeroTime }

/-- The choice of lines 79-83. -/
def newPrinter (fmtStr : String) (result : QueryResult) : Printer :=
  if result.Metadata.IsAggregate then Printer.aggregate newAggregatePrinter
  else Printer.eventList (newEventListPrinter fmtStr)

/-- Lines 63-109, after `Create` returned `id`: the first poll, the choice of
the printer, the two loops. -/
def pollAndPrint (sortSlice : (Event → Event → Bool) → List Event → List Event)
    (args : SearchArgs) (id : String) : List PollEnv → Option SearchReturn
  | [] => none
  | env :: rest =>
    match ((newPoller args.repository id).WaitAndPollContext env).err with
    | some err =>
      some { err := some err
             calls := pollCall (newPoller args.repository id)
               ((newPoller args.repository id).WaitAndPollContext env)
             printer := none }
    | none =>
      untilDone sortSlice args.live rest
        ((newPoller args.repository id).WaitAndPollContext env).poller
        ((newPoller args.repository id).WaitAndPollContext env).result
        (newPrinter args.fmtStr ((newPoller args.repository id).WaitAndPollContext env).result)
        (pollCall (newPoller args.repository id)
          ((newPoller args.repository id).WaitAndPollContext env))

/-- The function literal of lines 41-110: `Create`, then, if it succeeded,
the polling with the deferred `Delete` run when it returns; the error of
`Delete` is discarded. The progress bar writes to the terminal only and is
left out. The result is `none` when the function has not returned by the time
the listed environments run out. -/
def searchRun (sortSlice : (Event → Event → Bool) → List Event → List Event)
    (args : SearchArgs) (env : SearchEnv) : Option SearchReturn :=
  match env.create with
  | Except.error err =>
    some { err := some err
           calls := [Call.create args.repository ⟨args.queryString, args.start, args.end_, args.live⟩]
           printer := none }
  | Except.ok id =>
    match pollAndPrint sortSlice args id env.waits with
    | none => none
    | some r =>
      some { r with
             calls := Call.create args.repository ⟨args.queryString, args.start, args.end_, args.live⟩
               :: (r.calls ++ [Call.delete args.repository id]) }

/-- An environment of a call that ends the run whatever the state of the
poller: the poll fails; or the context is cancelled by the time the call
starts and `select` takes that case when the timer is ready too; or, outside
live mode, the context is never cancelled and the poll returns a snapshot
that is done. -/
def endsRun (live : Bool) (w : PollEnv) : Bool :=
  w.response.2.isSome ||
    (match w.cancelAt with
     | some c => decide (c ≤ w.now) && !w.timerFirst
     | none => false) ||
    (!live && w.cancelAt.isNone && w.response.1.Done)

/-! ## Sample inputs -/

/-- The default of the flag `--fmt`. -/
def defaultFmt : String := "\x7b@timestamp\x7d \x7b@rawstring\x7d"

/-- A snapshot of three events with the timestamps 300, 100, 200. -/
def snapshot300 : QueryResult :=
  { Done := true
    Events := [[("@timestamp", Value.num 300)], [("@timestamp", Value.num 100)],
      [("@timestamp", Value.num 200)]]
    Metadata := ⟨false, 0, 0, 0⟩ }

/-- A snapshot with one event that has a timestamp, then one that has none. -/
def snapshotMixed : QueryResult :=
  { Done := true
    Events := [[("@timestamp", Value.num 100)], [("msg", Value.str "a")]]
    Metadata := ⟨false, 0, 0, 0⟩ }

/-- An aggregate snapshot of one event with the given fields, in the order
in which `range` yields them. -/
def aggregateSnapshot (e : Event) : QueryResult :=
  { Done := true, Events := [e], Metadata := ⟨true, 0, 0, 0⟩ }

/-- A snapshot that is not done and asks for the next poll after the given
number of milliseconds. -/
def pollAfterSnapshot (d : Int) : QueryResult :=
  { Done := false, Events := [], Metadata := ⟨false, d, 0, 0⟩ }

/-- A call that starts with the clock at `now`, is not cancelled unless
`cancelAt` says so, and whose poll succeeds at once with the given snapshot. -/
def pollOk (now : Int) (cancelAt : Option Int) (result : QueryResult) : PollEnv :=
  { now := now, cancelAt := cancelAt, timerFirst := true, response := (result, none), latency := 0 }

/-- Two identified events, the later one first. -/
def snapshotAB : QueryResult :=
  { Done := true
    Events := [[("@id", Value.str "a"), ("@timestamp", Value.num 2)],
      [("@id", Value.str "b"), ("@timestamp", Value.num 1)]]
    Metadata := ⟨false, 0, 0, 0⟩ }

/-- The events of `snapshotAB` and a new one. -/
def snapshotABC : QueryResult :=
  { Done := true
    Events := [[("@id", Value.str "a"), ("@timestamp", Value.num 2)],
      [("@id", Value.str "b"), ("@timestamp", Value.num 1)],
      [("@id", Value.str "c"), ("@timestamp", Value.num 3)]]
    Metadata := ⟨false, 0, 0, 0⟩ }

/-- The command `humio search repo "count()"` with the default flags. -/
def sampleArgs : SearchArgs :=
  { repository := "repo", queryString := "count()", start := "10m", end_ := "", live := false
    fmtStr := defaultFmt }

/-- The same command in live mode. -/
def liveArgs : SearchArgs := { sampleArgs with live := true }

/-- A snapshot that is done. -/
def doneSnapshot : QueryResult :=
  { Done := true, Events := [[("@id", Value.str "a")]], Metadata := ⟨false, 500, 0, 0⟩ }

/-- A call whose poll fails with a transport error. -/
def pollFails (now : Int) : PollEnv :=
  { now := now, cancelAt := none, timerFirst := true
    response := (QueryResult.zero, some (Err.transport "EOF")), latency := 0 }

/-! ## The comparison and the sorting contract -/

theorem less_asymm (a b : Event) (h : less a b = true) : less b a = false := by
  unfold less at *
  cases ha : timestampOf a <;> cases hb : timestampOf b <;> simp_all
  exact le_of_lt h

theorem less_negTrans (a b c : Event) (hab : less a b = false) (hbc : less b c = false) :
    less a c = false := by
  unfold less at *
  cases ha : timestampOf a <;> cases hb : timestampOf b <;> cases hc : timestampOf c <;> simp_all
  exact le_trans hbc hab

theorem insertLeft_perm (x : Event) (l : List Event) : (insertLeft less x l).Perm (x :: l) := by
  induction l with
  | nil => simp [insertLeft]
  | cons y ys ih =>
    unfold insertLeft
    split
    · exact (List.Perm.cons y ih).trans (List.Perm.swap x y ys)
    · exact List.Perm.refl _

theorem insertLeft_pairwise (x : Event) (l : List Event)
    (h : l.Pairwise (fun a b => less a b = false)) :
    (insertLeft less x l).Pairwise (fun a b => less a b = false) := by
  induction l with
  | nil => simp [insertLeft]
  | cons y ys ih =>
    unfold insertLeft
    rw [List.pairwise_cons] at h
    split
    · rename_i hxy
      rw [List.pairwise_cons]
      refine ⟨?_, ih h.2⟩
      intro z hz
      have hz := (insertLeft_perm x ys).mem_iff.mp hz
      rw [List.mem_cons] at hz
      rcases hz with rfl | hz
      · exact less_asymm _ _ hxy
      · exact h.1 z hz
    · rename_i hxy
      have hxy : less x y = false := by simpa using hxy
      rw [List.pairwise_cons]
      refine ⟨?_, List.pairwise_cons.mpr h⟩
      intro z hz
      rw [List.mem_cons] at hz
      rcases hz with rfl | hz
      · exact hxy
      · exact less_negTrans x y z hxy (h.1 z hz)

theorem foldl_insertLeft (l acc : List Event)
    (h : acc.Pairwise (fun a b => less a b = false)) :
    (l.foldl (fun sorted x => insertLeft less x sorted) acc).Perm (l.reverse ++ acc) ∧
    (l.foldl (fun sorted x => insertLeft less x sorted) acc).Pairwise
      (fun a b => less a b = false) := by
  induction l generalizing acc with
  | nil => simpa using h
  | cons x xs ih =>
    have := ih (insertLeft less x acc) (insertLeft_pairwise x acc h)
    refine ⟨?_, this.2⟩
    simp only [List.foldl_cons, List.reverse_cons, List.append_assoc, List.singleton_append]
    exact this.1.trans (List.Perm.append_left _ (insertLeft_perm x acc))

/-- The reference insertion sort meets the contract of `sort.Slice`. -/
theorem insertionSort_spec : SortSliceSpec insertionSort := by
  intro l
  have h := foldl_insertLeft l [] List.Pairwise.nil
  unfold insertionSort
  constructor
  · refine (List.reverse_perm _).trans (h.1.trans ?_)
    simp
  · rw [List.pairwise_reverse]
    exact h.2

/-! ## The dedup loop of the event list printer -/

theorem identities_perm {l l' : List Event} (h : l.Perm l') :
    (l.filterMap stringId).Perm (l'.filterMap stringId) :=
  h.filterMap stringId

theorem printLoop_sublist (ids : List String) (l : List Event) :
    (printLoop ids l).2.Sublist l := by
  induction l generalizing ids with
  | nil => simp [printLoop]
  | cons e es ih =>
    unfold printLoop
    cases h : stringId e with
    | none => exact (ih ids).cons₂ e
    | some id =>
      by_cases hid : id ∈ ids
      · simpa [hid] using (ih ids).cons e
      · simpa [hid] using (ih (id :: ids)).cons₂ e

theorem printLoop_count_noId (ids : List String) (l : List Event) (e : Event)
    (he : stringId e = none) : (printLoop ids l).2.count e = l.count e := by
  induction l generalizing ids with
  | nil => simp [printLoop]
  | cons x xs ih =>
    unfold printLoop
    cases h : stringId x with
    | none => simp [List.count_cons, ih ids]
    | some id =>
      have hne : x ≠ e := by
        intro hxe
        rw [hxe, he] at h
        exact Option.noConfusion h
      by_cases hid : id ∈ ids
      · simp [hid, List.count_cons, ih ids, hne]
      · simp [hid, List.count_cons, ih (id :: ids), hne]

theorem printLoop_ids (ids : List String) (l : List Event) (i : String) :
    i ∈ (printLoop ids l).1 ↔ i ∈ ids ∨ i ∈ l.filterMap stringId := by
  induction l generalizing ids with
  | nil => simp [printLoop]
  | cons x xs ih =>
    unfold printLoop
    cases h : stringId x with
    | none => simp [ih ids, List.filterMap_cons, h]
    | some id =>
      by_cases hid : id ∈ ids
      · simp only [hid, if_true, ih ids, List.filterMap_cons, h, List.mem_cons]
        constructor
        · rintro (h1 | h1)
          · exact Or.inl h1
          · exact Or.inr (Or.inr h1)
        · rintro (h1 | h1 | h1)
          · exact Or.inl h1
          · exact Or.inl (h1 ▸ hid)
          · exact Or.inr h1
      · simp only [hid, if_false, ih (id :: ids), List.filterMap_cons, h, List.mem_cons]
        tauto

theorem printLoop_countId (ids : List String) (l : List Event) (i : String) :
    (printLoop ids l).2.countP (fun e => stringId e == some i) =
      if i ∈ ids then 0 else if i ∈ l.filterMap stringId then 1 else 0 := by
  induction l generalizing ids with
  | nil => simp [printLoop]
  | cons x xs ih =>
    unfold printLoop
    cases h : stringId x with
    | none => simp [ih ids, List.filterMap_cons, h, List.countP_cons]
    | some id =>
      by_cases hid : id ∈ ids
      · simp only [hid, if_true, ih ids, List.filterMap_cons, h, List.mem_cons]
        by_cases hi : i ∈ ids
        · simp [hi]
        · have hne : i ≠ id := fun hh => hi (hh ▸ hid)
          simp [hi, hne]
      · simp only [hid, if_false, ih (id :: ids), List.filterMap_cons, h, List.mem_cons,
          List.countP_cons]
        by_cases hii : i = id
        · subst hii
          simp [hid]
        · have hii' : ¬ id = i := fun hh => hii hh.symm
          simp [hii, hii']

theorem printLoop_all (ids : List String) (l : List Event)
    (hnd : (l.filterMap stringId).Nodup) (hfresh : ∀ i ∈ l.filterMap stringId, i ∉ ids) :
    (printLoop ids l).2 = l := by
  induction l generalizing ids with
  | nil => simp [printLoop]
  | cons x xs ih =>
    unfold printLoop
    cases h : stringId x with
    | none =>
      simp only [List.filterMap_cons, h] at hnd hfresh
      simp [ih ids hnd hfresh]
    | some id =>
      simp only [List.filterMap_cons, h, List.nodup_cons, List.mem_cons] at hnd hfresh
      have hid : id ∉ ids := hfresh id (Or.inl rfl)
      have := ih (id :: ids) hnd.2 (by
        intro i hi hmem
        rw [List.mem_cons] at hmem
        rcases hmem with rfl | hmem
        · exact hnd.1 hi
        · exact hfresh i (Or.inr hi) hmem)
      simp [hid, this]

/-! ## The event list printer: order and dedup -/

theorem emitted_sublist (sortSlice : (Event → Event → Bool) → List Event → List Event)
    (p : eventListPrinter) (result : QueryResult) :
    (p.emitted sortSlice result).Sublist (sortSlice less result.Events) :=
  printLoop_sublist _ _

theorem emitted_mem (sortSlice : (Event → Event → Bool) → List Event → List Event)
    (hs : SortSliceSpec sortSlice) (p : eventListPrinter) (result : QueryResult) (e : Event)
    (he : e ∈ p.emitted sortSlice result) : e ∈ result.Events :=
  (hs result.Events).1.mem_iff.mp ((emitted_sublist sortSlice p result).subset he)

theorem emitted_count_noId (sortSlice : (Event → Event → Bool) → List Event → List Event)
    (hs : SortSliceSpec sortSlice) (p : eventListPrinter) (result : QueryResult) (e : Event)
    (he : stringId e = none) : (p.emitted sortSlice result).count e = result.Events.count e := by
  unfold eventListPrinter.emitted
  rw [printLoop_count_noId _ _ e he]
  exact (hs result.Events).1.countP_eq (fun x => x == e)

theorem emitted_countId (sortSlice : (Event → Event → Bool) → List Event → List Event)
    (hs : SortSliceSpec sortSlice) (p : eventListPrinter) (result : QueryResult) (i : String) :
    (p.emitted sortSlice result).countP (fun e => stringId e == some i) =
      if i ∈ p.printedIds then 0 else if i ∈ result.Events.filterMap stringId then 1 else 0 := by
  unfold eventListPrinter.emitted
  rw [printLoop_countId]
  have := (identities_perm (hs result.Events).1).mem_iff (a := i)
  simp only [this]

theorem print_printedIds (sortSlice : (Event → Event → Bool) → List Event → List Event)
    (hs : SortSliceSpec sortSlice) (p : eventListPrinter) (result : QueryResult) (i : String) :
    i ∈ (p.print sortSlice result).printedIds ↔
      i ∈ p.printedIds ∨ i ∈ result.Events.filterMap stringId := by
  unfold eventListPrinter.print
  simp only [printLoop_ids]
  rw [(identities_perm (hs result.Events).1).mem_iff]

/-- C2, as the code has it: within one call of `print`, with any sorting
routine that meets the contract of `sort.Slice`, every emitted event without
a numeric `@timestamp` comes before every emitted event that has one: no
event with a timestamp is followed by an event without. -/
theorem print_missing_timestamp_first
    (sortSlice : (Event → Event → Bool) → List Event → List Event)
    (hs : SortSliceSpec sortSlice) (p : eventListPrinter) (result : QueryResult) :
    (p.emitted sortSlice result).Pairwise
      (fun a b => timestampOf b = none → timestampOf a = none) := by
  refine List.Pairwise.sublist (emitted_sublist sortSlice p result) ?_
  refine List.Pairwise.imp ?_ (hs result.Events).2
  intro a b hba hb
  unfold less at hba
  rw [hb] at hba
  cases ha : timestampOf a with
  | none => rfl
  | some x => simp [ha] at hba

/-- C10: when every event of the snapshot has a numeric `@timestamp` and
dedup suppresses none (the identities in the snapshot are distinct and not
yet printed), one call of `print` emits a permutation of the events of the
snapshot in non-decreasing order of `@timestamp`; the timestamps come out as
the sorted list of the timestamps of the snapshot, whatever the sorting
routine. -/
theorem print_timestamp_order
    (sortSlice : (Event → Event → Bool) → List Event → List Event)
    (hs : SortSliceSpec sortSlice) (p : eventListPrinter) (result : QueryResult)
    (hts : ∀ e ∈ result.Events, (timestampOf e).isSome = true)
    (hnd : (result.Events.filterMap stringId).Nodup)
    (hfresh : ∀ i ∈ result.Events.filterMap stringId, i ∉ p.printedIds) :
    (p.emitted sortSlice result).Perm result.Events ∧
    (p.emitted sortSlice result).Pairwise
      (fun a b => ∃ x y, timestampOf a = some x ∧ timestampOf b = some y ∧ x ≤ y) ∧
    (p.emitted sortSlice result).filterMap timestampOf =
      (result.Events.filterMap timestampOf).insertionSort (fun x y => x ≤ y) ∧
    (p.print sortSlice result).w =
      p.w ++ (p.emitted sortSlice result).map p.printEventFunc := by
  have hperm := (hs result.Events).1
  have hall : p.emitted sortSlice result = sortSlice less result.Events := by
    unfold eventListPrinter.emitted
    apply printLoop_all
    · exact (identities_perm hperm).nodup_iff.mpr hnd
    · intro i hi
      exact hfresh i ((identities_perm hperm).mem_iff.mp hi)
  have hpw : (p.emitted sortSlice result).Pairwise
      (fun a b => ∃ x y, timestampOf a = some x ∧ timestampOf b = some y ∧ x ≤ y) := by
    rw [hall]
    refine List.Pairwise.imp_of_mem ?_ (hs result.Events).2
    intro a b ha hb hba
    obtain ⟨x, hx⟩ := Option.isSome_iff_exists.mp (hts a (hperm.mem_iff.mp ha))
    obtain ⟨y, hy⟩ := Option.isSome_iff_exists.mp (hts b (hperm.mem_iff.mp hb))
    refine ⟨x, y, hx, hy, ?_⟩
    unfold less at hba
    simpa [hx, hy] using hba
  refine ⟨hall ▸ hperm, hpw, ?_, rfl⟩
  refine List.eq_of_perm_of_sorted ?_ ?_ (List.sorted_insertionSort _ _)
  · exact ((hall ▸ hperm : (p.emitted sortSlice result).Perm result.Events).filterMap
      timestampOf).trans (List.perm_insertionSort _ _).symm
  · unfold List.Sorted
    rw [List.pairwise_filterMap]
    refine List.Pairwise.imp ?_ hpw
    rintro a b ⟨x, y, hx, hy, hxy⟩ x' hx' y' hy'
    rw [hx] at hx'
    rw [hy] at hy'
    cases hx'
    cases hy'
    exact hxy

/-- C4: whatever the state of the printer, one call of `print` hands every
event without a string `@id` to `printEventFunc` as many times as it occurs
in the snapshot, so `n` calls with the same snapshot write it `n` times that
often; every identity in `printedIds` afterwards was there before or is the
string `@id` of an event of the snapshot. -/
theorem print_noId_always
    (sortSlice : (Event → Event → Bool) → List Event → List Event)
    (hs : SortSliceSpec sortSlice) (p : eventListPrinter) (result : QueryResult) (e : Event)
    (he : stringId e = none) :
    (p.emitted sortSlice result).count e = result.Events.count e ∧
    (∀ n, (eventListPrinter.emittedRepeat sortSlice result n p).count e =
      n * result.Events.count e) ∧
    (p.print sortSlice result).w =
      p.w ++ (p.emitted sortSlice result).map p.printEventFunc ∧
    (∀ i ∈ (p.print sortSlice result).printedIds,
      i ∈ p.printedIds ∨ ∃ x ∈ result.Events, stringId x = some i) ∧
    ((∀ x ∈ result.Events, stringId x = none) →
      ∀ i, i ∈ (p.print sortSlice result).printedIds ↔ i ∈ p.printedIds) := by
  refine ⟨emitted_count_noId sortSlice hs p result e he, ?_, rfl, ?_, ?_⟩
  · intro n
    induction n generalizing p with
    | zero => simp [eventListPrinter.emittedRepeat]
    | succ n ih =>
      simp only [eventListPrinter.emittedRepeat, List.count_append, ih,
        emitted_count_noId sortSlice hs p result e he]
      ring
  · intro i hi
    rcases (print_printedIds sortSlice hs p result i).mp hi with h | h
    · exact Or.inl h
    · right
      obtain ⟨x, hx, hxi⟩ := List.mem_filterMap.mp h
      exact ⟨x, hx, hxi⟩
  · intro hall i
    rw [print_printedIds sortSlice hs p result i]
    constructor
    · rintro (h | h)
      · exact h
      · obtain ⟨x, hx, hxi⟩ := List.mem_filterMap.mp h
        rw [hall x hx] at hxi
        exact Option.noConfusion hxi
    · exact Or.inl

/-- C3: on a fresh printer, with every event of `S1` and `S2` carrying a
string `@id` and `S2` holding every event of `S1`, `print(S1)` then
`print(S2)` write one line per identity: the first call one line for each
identity of `S1`, the second one line for each identity of `S2` that is not
in `S1` and none for the others, so each identity of `S2` gets exactly one
line over the two calls; every line is for an event of the snapshot. -/
theorem print_dedup_across_calls
    (sortSlice : (Event → Event → Bool) → List Event → List Event)
    (hs : SortSliceSpec sortSlice) (fmt : String) (S1 S2 : QueryResult)
    (h1 : ∀ e ∈ S1.Events, (stringId e).isSome = true)
    (h2 : ∀ e ∈ S2.Events, (stringId e).isSome = true)
    (hsub : ∀ e ∈ S1.Events, e ∈ S2.Events) (i : String) :
    ((newEventListPrinter fmt).emitted sortSlice S1).countP (fun e => stringId e == some i) =
      (if i ∈ S1.Events.filterMap stringId then 1 else 0) ∧
    (((newEventListPrinter fmt).print sortSlice S1).emitted sortSlice S2).countP
        (fun e => stringId e == some i) =
      (if i ∈ S2.Events.filterMap stringId ∧ i ∉ S1.Events.filterMap stringId then 1 else 0) ∧
    ((newEventListPrinter fmt).emitted sortSlice S1 ++
        ((newEventListPrinter fmt).print sortSlice S1).emitted sortSlice S2).countP
        (fun e => stringId e == some i) =
      (if i ∈ S2.Events.filterMap stringId then 1 else 0) ∧
    (∀ e ∈ (newEventListPrinter fmt).emitted sortSlice S1 ++
        ((newEventListPrinter fmt).print sortSlice S1).emitted sortSlice S2,
      (stringId e).isSome = true) ∧
    (((newEventListPrinter fmt).print sortSlice S1).print sortSlice S2).w =
      ((newEventListPrinter fmt).emitted sortSlice S1 ++
        ((newEventListPrinter fmt).print sortSlice S1).emitted sortSlice S2).map
        (newEventListPrinter fmt).printEventFunc := by
  have hfresh : (newEventListPrinter fmt).printedIds = [] := rfl
  have ha := emitted_countId sortSlice hs (newEventListPrinter fmt) S1 i
  have hb := emitted_countId sortSlice hs ((newEventListPrinter fmt).print sortSlice S1) S2 i
  have hids := print_printedIds sortSlice hs (newEventListPrinter fmt) S1 i
  simp only [hfresh, List.not_mem_nil, if_false, false_or] at ha hids
  have hsubId : i ∈ S1.Events.filterMap stringId → i ∈ S2.Events.filterMap stringId := by
    intro h
    obtain ⟨x, hx, hxi⟩ := List.mem_filterMap.mp h
    exact List.mem_filterMap.mpr ⟨x, hsub x hx, hxi⟩
  have hb' : (((newEventListPrinter fmt).print sortSlice S1).emitted sortSlice S2).countP
        (fun e => stringId e == some i) =
      (if i ∈ S2.Events.filterMap stringId ∧ i ∉ S1.Events.filterMap stringId then 1 else 0) := by
    rw [hb]
    by_cases c1 : i ∈ S1.Events.filterMap stringId
    · simp [hids.mpr c1, c1]
    · have : i ∉ ((newEventListPrinter fmt).print sortSlice S1).printedIds :=
        fun h => c1 (hids.mp h)
      simp [this, c1]
  refine ⟨ha, hb', ?_, ?_, ?_⟩
  · rw [List.countP_append, ha, hb']
    by_cases c1 : i ∈ S1.Events.filterMap stringId
    · simp [c1, hsubId c1]
    · simp [c1]
  · intro e he
    rcases List.mem_append.mp he with he | he
    · exact h1 e (emitted_mem sortSlice hs _ S1 e he)
    · exact h2 e (emitted_mem sortSlice hs _ S2 e he)
  · simp [eventListPrinter.print, eventListPrinter.printEventFunc, hfresh,
      show (newEventListPrinter fmt).w = [] from rfl]

/-! ## The format compiler: matches and segments -/

theorem matchPlaceholder_length (s body rest : List Char)
    (h : matchPlaceholder s = some (body, rest)) : rest.length < s.length := by
  cases s with
  | nil => simp [matchPlaceholder] at h
  | cons c t =>
    have hle := (List.dropWhile_sublist (l := t) (fun x => x != '\x7d')).length_le
    unfold matchPlaceholder at h
    by_cases hc : c = '\x7b'
    · simp only [hc, if_true] at h
      cases hd : t.dropWhile (fun x => x != '\x7d') with
      | nil => simp [hd] at h
      | cons x r =>
        rw [hd] at h hle
        by_cases he : t.takeWhile (fun x => x != '\x7d') = []
        · simp [he] at h
        · simp only [he, if_false, Option.some.injEq, Prod.mk.injEq] at h
          rw [← h.2]
          simp only [List.length_cons] at hle ⊢
          omega
    · simp [hc] at h

theorem segments_succ_cons (n : Nat) (c : Char) (t : List Char) :
    segments (n + 1) (c :: t) =
      match matchPlaceholder (c :: t) with
      | some (body, rest) =>
        Segment.placeholder (splitField body).1 (splitField body).2 :: segments n rest
      | none => Segment.text c :: segments n t := rfl

theorem segments_fuel (n m : Nat) (s : List Char) (hn : s.length ≤ n) (hm : s.length ≤ m) :
    segments n s = segments m s := by
  induction n generalizing m s with
  | zero =>
    have : s = [] := List.length_eq_zero.mp (Nat.le_zero.mp hn)
    subst this
    cases m <;> rfl
  | succ k ih =>
    cases s with
    | nil => cases m <;> rfl
    | cons c t =>
      cases m with
      | zero => simp at hm
      | succ j =>
        simp only [List.length_cons, Nat.add_le_add_iff_right] at hn hm
        unfold segments
        cases hmp : matchPlaceholder (c :: t) with
        | none => simp only; rw [ih j t hn hm]
        | some br =>
          obtain ⟨body, rest⟩ := br
          have hlt := matchPlaceholder_length _ _ _ hmp
          simp only [List.length_cons] at hlt
          simp only
          rw [ih j rest (by omega) (by omega)]

theorem segments_nil (n : Nat) : segments n [] = [] := by
  cases n <;> rfl

theorem segments_text (n : Nat) (c : Char) (t : List Char) (hc : c ≠ '\x7b')
    (hn : t.length < n) : segments n (c :: t) = Segment.text c :: segments t.length t := by
  cases n with
  | zero => omega
  | succ k =>
    have hmp : matchPlaceholder (c :: t) = none := by simp [matchPlaceholder, hc]
    rw [segments_succ_cons, hmp]
    simp only
    rw [segments_fuel k t.length t (by omega) (le_refl _)]

theorem segments_match (n : Nat) (s body rest : List Char)
    (h : matchPlaceholder s = some (body, rest)) (hn : s.length ≤ n) :
    segments n s =
      Segment.placeholder (splitField body).1 (splitField body).2 ::
        segments rest.length rest := by
  have hlt := matchPlaceholder_length _ _ _ h
  cases s with
  | nil => simp [matchPlaceholder] at h
  | cons c t =>
    cases n with
    | zero => simp at hn
    | succ k =>
      simp only [List.length_cons] at hn hlt
      rw [segments_succ_cons, h]
      simp only
      rw [segments_fuel k rest.length rest (by omega) (le_refl _)]

theorem takeWhile_until (p : Char → Bool) (body rest : List Char) (c : Char)
    (hb : ∀ x ∈ body, p x = true) (hc : p c = false) :
    (body ++ c :: rest).takeWhile p = body ∧ (body ++ c :: rest).dropWhile p = c :: rest := by
  induction body with
  | nil => simp [List.takeWhile, List.dropWhile, hc]
  | cons y ys ih =>
    have hy : p y = true := hb y (List.mem_cons_self _ _)
    have := ih (fun x hx => hb x (List.mem_cons_of_mem _ hx))
    simp [List.takeWhile, List.dropWhile, hy, this.1, this.2]

theorem matchPlaceholder_braces (body rest : List Char) (hne : body ≠ [])
    (hb : ∀ x ∈ body, x ≠ '\x7d') :
    matchPlaceholder ('\x7b' :: (body ++ '\x7d' :: rest)) = some (body, rest) := by
  have h := takeWhile_until (fun x => x != '\x7d') body rest '\x7d'
    (by intro x hx; simpa using hb x hx) (by simp)
  unfold matchPlaceholder
  simp only [if_true, h.1, h.2]
  simp [hne]

theorem splitField_plain (name : List Char) (h : ∀ x ∈ name, x ≠ ':') :
    splitField name = (name, []) := by
  unfold splitField
  have : ':' ∉ name := fun hm => h ':' hm rfl
  simp [this]

theorem splitField_colon (name m : List Char) (h : ∀ x ∈ name, x ≠ ':') :
    splitField (name ++ ':' :: m) = (name, m) := by
  have ht := takeWhile_until (fun x => x != ':') name m ':'
    (by intro x hx; simpa using h x hx) (by simp)
  unfold splitField
  simp [ht.1, ht.2]

/-- The segments of a placeholder written `{name}` or `{name:modifier}`. -/
theorem segments_placeholder (p : Placeholder) (rest : List Char) (n : Nat)
    (hne : p.name ≠ [])
    (hname : ∀ c ∈ p.name, c ≠ '\x7b' ∧ c ≠ '\x7d' ∧ c ≠ ':')
    (hmod : ∀ m, p.modifier = some m → ∀ c ∈ m, c ≠ '\x7d')
    (hn : ('\x7b' :: (p.name ++ ((match p.modifier with | some m => ':' :: m | none => []) ++
      ('\x7d' :: rest)))).length ≤ n) :
    segments n ('\x7b' :: (p.name ++ ((match p.modifier with | some m => ':' :: m | none => []) ++
      ('\x7d' :: rest)))) =
      Segment.placeholder p.name (p.modifier.getD []) :: segments rest.length rest := by
  cases hm : p.modifier with
  | none =>
    rw [hm] at hn
    simp only [List.nil_append] at hn ⊢
    rw [segments_match n _ p.name rest
      (matchPlaceholder_braces p.name rest hne (fun x hx => (hname x hx).2.1)) hn]
    rw [splitField_plain p.name (fun x hx => (hname x hx).2.2)]
    rfl
  | some m =>
    rw [hm] at hn
    have hbody : ∀ x ∈ p.name ++ ':' :: m, x ≠ '\x7d' := by
      intro x hx
      rcases List.mem_append.mp hx with hx | hx
      · exact (hname x hx).2.1
      · rcases List.mem_cons.mp hx with rfl | hx
        · decide
        · exact hmod m hm x hx
    have hshape : p.name ++ ((':' :: m) ++ ('\x7d' :: rest)) =
        (p.name ++ ':' :: m) ++ '\x7d' :: rest := by simp
    simp only at hn ⊢
    rw [hshape] at hn ⊢
    rw [segments_match n _ (p.name ++ ':' :: m) rest
      (matchPlaceholder_braces _ rest (by simp) hbody) hn]
    rw [splitField_colon p.name m (fun x hx => (hname x hx).2.2)]
    rfl

theorem segments_literal (l rest : List Char) (h : ∀ c ∈ l, c ≠ '\x7b' ∧ c ≠ '\x7d') :
    segments (l ++ rest).length (l ++ rest) =
      l.map Segment.text ++ segments rest.length rest := by
  induction l with
  | nil => rfl
  | cons c t ih =>
    have hc := (h c (List.mem_cons_self _ _)).1
    simp only [List.cons_append, List.map_cons]
    rw [segments_text _ c (t ++ rest) hc (by simp)]
    rw [ih (fun x hx => h x (List.mem_cons_of_mem _ hx))]

/-- The segments of a format string of the shape of the specification. -/
theorem segments_shape (ps : List Placeholder)
    (h : ∀ p ∈ ps, p.name ≠ [] ∧ (∀ c ∈ p.name, c ≠ '\x7b' ∧ c ≠ '\x7d' ∧ c ≠ ':') ∧
      (∀ c ∈ p.modifier.getD [], c ≠ '\x7d') ∧
      (∀ c ∈ p.literal, c ≠ '\x7b' ∧ c ≠ '\x7d')) :
    segments (ps.flatMap Placeholder.source).length (ps.flatMap Placeholder.source) =
      ps.flatMap (fun p =>
        Segment.placeholder p.name (p.modifier.getD []) :: p.literal.map Segment.text) := by
  induction ps with
  | nil => rfl
  | cons p ps ih =>
    obtain ⟨hne, hname, hmod, hlit⟩ := h p (List.mem_cons_self _ _)
    have ih := ih (fun q hq => h q (List.mem_cons_of_mem _ hq))
    simp only [List.flatMap_cons, Placeholder.source, List.cons_append, List.append_assoc]
    rw [segments_placeholder p _ _ hne hname
      (fun m hm c hc => hmod c (by simpa [hm] using hc)) (le_refl _)]
    rw [segments_literal p.literal _ hlit, ih]

/-! ## The format compiler: the template and its slots -/

theorem template_text (l : List Char) : (l.map Segment.text).flatMap Segment.template = l := by
  induction l with
  | nil => rfl
  | cons c t ih => simp [List.flatMap_cons, Segment.template, ih]

theorem field_text (l : List Char) : (l.map Segment.text).filterMap Segment.field = [] := by
  induction l with
  | nil => rfl
  | cons c t ih => simp [Segment.field, ih]

theorem template_shape (ps : List Placeholder) :
    (ps.flatMap (fun p =>
      Segment.placeholder p.name (p.modifier.getD []) :: p.literal.map Segment.text)).flatMap
        Segment.template =
      ps.flatMap (fun p => '%' :: (p.modifier.getD [] ++ ('s' :: p.literal))) := by
  induction ps with
  | nil => rfl
  | cons p ps ih =>
    simp only [List.flatMap_cons, List.flatMap_append, template_text, Segment.template,
      List.singleton_append, List.cons_append, List.append_assoc, List.nil_append, ih]

theorem field_shape (ps : List Placeholder) :
    (ps.flatMap (fun p =>
      Segment.placeholder p.name (p.modifier.getD []) :: p.literal.map Segment.text)).filterMap
        Segment.field = ps.map (fun p => String.mk p.name) := by
  induction ps with
  | nil => rfl
  | cons p ps ih =>
    simp only [List.flatMap_cons, List.filterMap_append, List.filterMap_cons, Segment.field,
      field_text, List.nil_append, List.map_cons, List.cons_append, ih]

/-- C6: for a format string of the shape `L0 {n1[:m1]} L1 ... {nk[:mk]} Lk`,
with no brace in a literal, names that are not empty and hold no brace and no
colon, and modifiers without a closing brace, `newEventListPrinter` builds
the template `L0 %m1s L1 ... %mks Lk` and the print fields `n1, ..., nk`, in
that order and with repeats kept. -/
theorem newEventListPrinter_compiles (l0 : List Char) (ps : List Placeholder)
    (h : wellShaped l0 ps) :
    (newEventListPrinter (formatOf l0 ps)).fmt = templateOf l0 ps ∧
    (newEventListPrinter (formatOf l0 ps)).printFields = ps.map (fun p => String.mk p.name) := by
  have hseg : segments (formatOf l0 ps).data.length (formatOf l0 ps).data =
      l0.map Segment.text ++ ps.flatMap (fun p =>
        Segment.placeholder p.name (p.modifier.getD []) :: p.literal.map Segment.text) := by
    show segments (l0 ++ ps.flatMap Placeholder.source).length
      (l0 ++ ps.flatMap Placeholder.source) = _
    rw [segments_literal l0 _ h.1, segments_shape ps h.2]
  unfold newEventListPrinter
  simp only [hseg]
  constructor
  · unfold templateOf
    rw [List.flatMap_append, template_text, template_shape]
  · rw [List.filterMap_append, field_text, List.nil_append, field_shape]

theorem isDigit_ne_star (c : Char) (h : c.isDigit = true) : c ≠ '*' := by
  intro hc
  subst hc
  revert h
  decide

theorem slotsFrom_width (num : Nat) (ds rest : List Char) (h : widthFits num ds = true) :
    slotsFrom (Scan.width num) (ds ++ 's' :: rest) = 1 + slotsFrom Scan.text rest := by
  induction ds generalizing num with
  | nil =>
    show (if 's'.isDigit then _ else _) = _
    simp [show 's'.isDigit = false by decide]
  | cons d ds ih =>
    simp only [widthFits, Bool.and_eq_true, Bool.not_eq_true'] at h
    show (if d.isDigit then
      (if tooLarge num then 0
       else slotsFrom (Scan.width (num * 10 + digitValue d)) (ds ++ 's' :: rest)) else _) = _
    rw [if_pos h.1.1, h.1.2]
    simp only [Bool.false_eq_true, if_false]
    exact ih _ h.2

theorem slotsFrom_flags (arg rest : List Char) (h : widthModifier arg = true) :
    slotsFrom Scan.flags (arg ++ 's' :: rest) = 1 + slotsFrom Scan.text rest := by
  induction arg with
  | nil =>
    show (if isFlag 's' then _ else _) = _
    simp [show isFlag 's' = false by decide, show 's'.isDigit = false by decide]
  | cons c t ih =>
    show (if isFlag c then slotsFrom Scan.flags (t ++ 's' :: rest) else _) = _
    by_cases hf : isFlag c = true
    · rw [if_pos hf]
      apply ih
      unfold widthModifier at h ⊢
      simpa [List.dropWhile, hf] using h
    · rw [if_neg hf]
      unfold widthModifier at h
      have hf' : isFlag c = false := by simpa using hf
      simp only [List.dropWhile, hf', widthFits, Bool.and_eq_true, Bool.not_eq_true',
        Nat.zero_mul, Nat.zero_add] at h
      rw [if_neg (isDigit_ne_star c h.1.1), if_pos h.1.1]
      exact slotsFrom_width _ t rest h.2

theorem slotsFrom_segments (segs : List Segment) (tail : List Char)
    (h : ∀ s ∈ segs, s.plain = true) :
    slotsFrom Scan.text (segs.flatMap Segment.template ++ tail) =
      (segs.filterMap Segment.field).length + slotsFrom Scan.text tail := by
  induction segs with
  | nil => simp
  | cons s segs ih =>
    have hs := h s (List.mem_cons_self _ _)
    have ih := ih (fun x hx => h x (List.mem_cons_of_mem _ hx))
    cases s with
    | text c =>
      have hc : c ≠ '%' := by simpa [Segment.plain] using hs
      simp only [List.flatMap_cons, Segment.template, List.singleton_append, List.cons_append,
        List.filterMap_cons, Segment.field]
      show (if c = '%' then _ else slotsFrom Scan.text _) = _
      rw [if_neg hc]
      simpa using ih
    | placeholder f arg =>
      have ha : widthModifier arg = true := hs
      simp only [List.flatMap_cons, Segment.template, List.cons_append, List.append_assoc,
        List.singleton_append, List.filterMap_cons, Segment.field, List.length_cons]
      show (if '%' = '%' then slotsFrom Scan.flags (arg ++ 's' :: _) else _) = _
      rw [if_pos rfl, slotsFrom_flags arg _ ha]
      simp only [List.nil_append]
      rw [ih]
      omega

/-- C5, as the code has it: when the text outside the placeholders holds no
percent sign and every modifier is made of printf flags followed by width
digits that `parsenum` of package `fmt` reads to the end (no digit after the
number has passed a million, as for every width of up to seven digits), the
template has as many substitution slots as there are print fields, with or
without the line break `printEventFunc` appends; and for every format string
`printEventFunc` passes one argument per print field. -/
theorem template_slots_eq_printFields (fmt : String)
    (h : ∀ s ∈ segments fmt.data.length fmt.data, s.plain = true) :
    slots (newEventListPrinter fmt).fmt = (newEventListPrinter fmt).printFields.length ∧
    slots ((newEventListPrinter fmt).fmt ++ "\n") =
      (newEventListPrinter fmt).printFields.length ∧
    ∀ m : Event, (newEventListPrinter fmt).printEventFunc m =
      Write.fprintf ((newEventListPrinter fmt).fmt ++ "\n")
        ((newEventListPrinter fmt).printFields.map (fun f => fieldPrinter f m)) ∧
      ((newEventListPrinter fmt).printFields.map (fun f => fieldPrinter f m)).length =
        (newEventListPrinter fmt).printFields.length := by
  refine ⟨?_, ?_, fun m => ⟨rfl, List.length_map _ _⟩⟩
  · have := slotsFrom_segments _ [] h
    simpa [slots, newEventListPrinter, slotsFrom] using this
  · have := slotsFrom_segments _ ['\n'] h
    have hnl : slotsFrom Scan.text ['\n'] = 0 := by decide
    rw [hnl] at this
    simpa [slots, newEventListPrinter] using this

/-- A width of eight digits whose first seven pass a million: `parsenum`
gives up, the rest of the template is skipped and no operand is absorbed, so
a modifier of that kind is outside the statement above: the format string
`{a:12345678}|{b}` has two print fields and a template that absorbs none. -/
theorem slots_width_tooLarge :
    slots "%12345678s|%s" = 0 ∧ slots "%1234567s|%s" = 2 ∧ slots "%10000000s|%s" = 2 ∧
    widthModifier "12345678".data = false ∧ widthModifier "-1234567".data = true ∧
    (newEventListPrinter "\x7ba:12345678\x7d|\x7bb\x7d").fmt = "%12345678s|%s" ∧
    slots (newEventListPrinter "\x7ba:12345678\x7d|\x7bb\x7d").fmt = 0 ∧
    (newEventListPrinter "\x7ba:12345678\x7d|\x7bb\x7d").printFields.length = 2 := by
  decide

/-! ## The aggregate printer -/

theorem scanKeys_fst (f m : List String) (keys : List String) :
    (scanKeys (f, m) keys).1 = f ++ (scanKeys ([], m) keys).1 ∧
    (scanKeys (f, m) keys).2 = (scanKeys ([], m) keys).2 := by
  induction keys generalizing f m with
  | nil => simp [scanKeys]
  | cons k ks ih =>
    unfold scanKeys at ih ⊢
    simp only [List.foldl_cons]
    by_cases hk : k ∈ m
    · simp only [hk, if_true]
      exact ih f m
    · simp only [hk, if_false, List.nil_append]
      have h1 := ih (f ++ [k]) (k :: m)
      have h2 := ih [k] (k :: m)
      rw [h1.1, h1.2, h2.1, h2.2]
      simp

theorem scanEvents_fst (f m : List String) (events : List Event) :
    (scanEvents (f, m) events).1 = f ++ (scanEvents ([], m) events).1 ∧
    (scanEvents (f, m) events).2 = (scanEvents ([], m) events).2 := by
  induction events generalizing f m with
  | nil => simp [scanEvents]
  | cons e es ih =>
    unfold scanEvents at ih ⊢
    simp only [List.foldl_cons]
    have hk := scanKeys_fst f m e.keys
    have h1 := ih (scanKeys (f, m) e.keys).1 (scanKeys (f, m) e.keys).2
    have h2 := ih (scanKeys ([], m) e.keys).1 (scanKeys ([], m) e.keys).2
    simp only [Prod.mk.eta] at h1 h2
    rw [h1.1, h1.2, h2.1, h2.2, hk.1, hk.2]
    simp

/-- What `print` does to `columns`, whatever they were: the names found by a
scan of the snapshot that starts from no name are appended, also those that
`columns` already holds. -/
theorem aggregatePrinter_print_columns (p : aggregatePrinter) (result : QueryResult) :
    (p.print result).columns = p.columns ++ (scanEvents ([], []) result.Events).1 := by
  have h := (scanEvents_fst p.columns [] result.Events).1
  unfold aggregatePrinter.print
  split
  · rename_i h0
    rw [h0] at h
    exact h
  · rename_i c e h0 _
    rw [h0] at h
    exact h
  · exact h

/-- On a printer that has no column yet, a snapshot of one event with one
field is written as the value alone. -/
theorem aggregatePrinter_print_scalar_first (p : aggregatePrinter) (hp : p.columns = [])
    (c : String) (v : Value) (done : Bool) (md : QueryResultMetadata) :
    p.print ⟨done, [[(c, v)]], md⟩ =
      { w := p.w ++ [Write.fprintln (some v)], columns := [c] } := by
  unfold aggregatePrinter.print
  simp [hp, scanEvents, scanKeys, Event.keys, Event.get, List.lookup]

/-! ## The backoff poller -/

theorem wrapInt64_of_fits (x : Int) (h : -(2 ^ 63) ≤ x ∧ x < 2 ^ 63) : wrapInt64 x = x := by
  unfold wrapInt64
  have h1 : (x + 2 ^ 63) % 2 ^ 64 = x + 2 ^ 63 := by
    apply Int.emod_eq_of_lt
    · omega
    · omega
  rw [h1]
  omega

theorem millis_of_fits (d : Int) (h : -(2 ^ 63) ≤ d * 1000000 ∧ d * 1000000 < 2 ^ 63) :
    millis d = d * 1000000 := by
  unfold millis
  rw [wrapInt64_of_fits d (by omega), wrapInt64_of_fits _ h]

theorem waitAndPoll_cancelled (q : queryJobPoller) (env : PollEnv)
    (h : q.cancelled env = true) :
    q.WaitAndPollContext env =
      { poller := q, result := QueryResult.zero, err := some Err.canceled, polledAt := none } := by
  unfold queryJobPoller.WaitAndPollContext
  rw [if_pos h]

theorem cancelled_of_before (q : queryJobPoller) (env : PollEnv) (c : Int)
    (hc : env.cancelAt = some c) (h : max c env.now < q.wakeAt env) : q.cancelled env = true := by
  unfold queryJobPoller.cancelled
  rw [hc]
  simp [h]

theorem wakeAt_ge (q : queryJobPoller) (env : PollEnv)
    (h : q.nextPoll - env.now < 2 ^ 63) : q.nextPoll ≤ q.wakeAt env := by
  unfold queryJobPoller.wakeAt timeSub
  omega

/-- C9, as the code has it: a call that polls with success at a time `t`
(the clock when `PollContext` has returned) and reads `PollAfter = d`, with
`d` milliseconds in the range of `time.Duration`, leaves
`nextPoll = t + d ms`; a later call, started when the clock is at `t` or
after, issues no poll before `nextPoll`; and if the context is cancelled
before the timer of that call delivers, the call returns the cancellation
error with the zero result, issues no poll and leaves `nextPoll` as it was. -/
theorem waitAndPoll_backoff (q : queryJobPoller) (env : PollEnv) (r : QueryResult)
    (hresp : env.response = (r, none)) (hnc : q.cancelled env = false)
    (hd : -(2 ^ 63) ≤ r.Metadata.PollAfter * 1000000 ∧ r.Metadata.PollAfter * 1000000 < 2 ^ 63) :
    (q.WaitAndPollContext env).err = none ∧
    (q.WaitAndPollContext env).result = r ∧
    (q.WaitAndPollContext env).polledAt = some (q.wakeAt env) ∧
    (q.WaitAndPollContext env).poller.nextPoll =
      q.wakeAt env + env.latency + r.Metadata.PollAfter * 1000000 ∧
    ∀ env2 : PollEnv, q.wakeAt env + env.latency ≤ env2.now →
      (∀ t2, ((q.WaitAndPollContext env).poller.WaitAndPollContext env2).polledAt = some t2 →
        q.wakeAt env + env.latency + r.Metadata.PollAfter * 1000000 ≤ t2) ∧
      (∀ c, env2.cancelAt = some c →
        max c env2.now < (q.WaitAndPollContext env).poller.wakeAt env2 →
        (q.WaitAndPollContext env).poller.WaitAndPollContext env2 =
          { poller := (q.WaitAndPollContext env).poller, result := QueryResult.zero,
            err := some Err.canceled, polledAt := none }) := by
  have hcall : q.WaitAndPollContext env =
      { poller := { q with nextPoll := q.wakeAt env + env.latency + millis r.Metadata.PollAfter }
        result := r, err := none, polledAt := some (q.wakeAt env) } := by
    unfold queryJobPoller.WaitAndPollContext
    rw [if_neg (by simp [hnc]), hresp]
  rw [hcall]
  simp only [millis_of_fits _ hd, true_and]
  intro env2 hnow
  constructor
  · intro t2 ht2
    unfold queryJobPoller.WaitAndPollContext at ht2
    split at ht2
    · exact Option.noConfusion ht2
    · have hw := wakeAt_ge
        { q with nextPoll := q.wakeAt env + env.latency + r.Metadata.PollAfter * 1000000 } env2
        (by simp only; omega)
      simp only at hw
      split at ht2
      · simp only [Option.some.injEq] at ht2
        rw [← ht2]
        exact hw
      · simp only [Option.some.injEq] at ht2
        rw [← ht2]
        exact hw
  · intro c hc hlt
    exact waitAndPoll_cancelled _ env2 (cancelled_of_before _ env2 c hc hlt)

/-! ## The job lifecycle -/

theorem waitAndPoll_poller (q : queryJobPoller) (env : PollEnv) :
    (q.WaitAndPollContext env).poller.repository = q.repository ∧
    (q.WaitAndPollContext env).poller.id = q.id := by
  unfold queryJobPoller.WaitAndPollContext
  split
  · exact ⟨rfl, rfl⟩
  · split <;> exact ⟨rfl, rfl⟩

theorem waitAndPoll_err_none (q : queryJobPoller) (env : PollEnv)
    (h : (q.WaitAndPollContext env).err = none) : env.response.2 = none := by
  unfold queryJobPoller.WaitAndPollContext at h
  split at h
  · exact Option.noConfusion h
  · split at h
    · exact Option.noConfusion h
    · rename_i hr
      rw [hr]

theorem pollCall_poll (q : queryJobPoller) (r : PollReturn) :
    ∀ c ∈ pollCall q r, c = Call.poll q.repository q.id := by
  intro c hc
  unfold pollCall at hc
  split at hc
  · simpa using hc
  · simp at hc

theorem liveLoop_calls (sortSlice : (Event → Event → Bool) → List Event → List Event)
    (waits : List PollEnv) (q : queryJobPoller) (printer : Printer) (calls : List Call)
    (r : SearchReturn) (h : liveLoop sortSlice waits q printer calls = some r) :
    ∃ polls, r.calls = calls ++ polls ∧ ∀ c ∈ polls, c = Call.poll q.repository q.id := by
  induction waits generalizing q printer calls with
  | nil => simp [liveLoop] at h
  | cons env rest ih =>
    unfold liveLoop at h
    split at h
    · simp only [Option.some.injEq] at h
      subst h
      exact ⟨_, rfl, pollCall_poll q _⟩
    · obtain ⟨polls, hp, hall⟩ := ih _ _ _ h
      refine ⟨pollCall q (q.WaitAndPollContext env) ++ polls, ?_, ?_⟩
      · rw [hp, List.append_assoc]
      · intro c hc
        rcases List.mem_append.mp hc with hc | hc
        · exact pollCall_poll q _ c hc
        · have := hall c hc
          rwa [(waitAndPoll_poller q env).1, (waitAndPoll_poller q env).2] at this

theorem afterDone_calls (sortSlice : (Event → Event → Bool) → List Event → List Event)
    (live : Bool) (waits : List PollEnv) (q : queryJobPoller) (result : QueryResult)
    (printer : Printer) (calls : List Call) (r : SearchReturn)
    (h : afterDone sortSlice live waits q result printer calls = some r) :
    ∃ polls, r.calls = calls ++ polls ∧ ∀ c ∈ polls, c = Call.poll q.repository q.id := by
  unfold afterDone at h
  split at h
  · exact liveLoop_calls sortSlice waits q _ calls r h
  · simp only [Option.some.injEq] at h
    subst h
    exact ⟨[], by simp, by simp⟩

theorem untilDone_calls (sortSlice : (Event → Event → Bool) → List Event → List Event)
    (live : Bool) (waits : List PollEnv) (q : queryJobPoller) (result : QueryResult)
    (printer : Printer) (calls : List Call) (r : SearchReturn)
    (h : untilDone sortSlice live waits q result printer calls = some r) :
    ∃ polls, r.calls = calls ++ polls ∧ ∀ c ∈ polls, c = Call.poll q.repository q.id := by
  induction waits generalizing q result calls with
  | nil =>
    unfold untilDone at h
    split at h
    · exact afterDone_calls sortSlice live [] q result printer calls r h
    · exact Option.noConfusion h
  | cons env rest ih =>
    unfold untilDone at h
    split at h
    · exact afterDone_calls sortSlice live _ q result printer calls r h
    · split at h
      · simp only [Option.some.injEq] at h
        subst h
        exact ⟨_, rfl, pollCall_poll q _⟩
      · obtain ⟨polls, hp, hall⟩ := ih _ _ _ h
        refine ⟨pollCall q (q.WaitAndPollContext env) ++ polls, ?_, ?_⟩
        · rw [hp, List.append_assoc]
        · intro c hc
          rcases List.mem_append.mp hc with hc | hc
          · exact pollCall_poll q _ c hc
          · have := hall c hc
            rwa [(waitAndPoll_poller q env).1, (waitAndPoll_poller q env).2] at this

theorem pollAndPrint_cons (sortSlice : (Event → Event → Bool) → List Event → List Event)
    (args : SearchArgs) (id : String) (env : PollEnv) (rest : List PollEnv) :
    pollAndPrint sortSlice args id (env :: rest) =
      match ((newPoller args.repository id).WaitAndPollContext env).err with
      | some err =>
        some { err := some err
               calls := pollCall (newPoller args.repository id)
                 ((newPoller args.repository id).WaitAndPollContext env)
               printer := none }
      | none =>
        untilDone sortSlice args.live rest
          ((newPoller args.repository id).WaitAndPollContext env).poller
          ((newPoller args.repository id).WaitAndPollContext env).result
          (newPrinter args.fmtStr ((newPoller args.repository id).WaitAndPollContext env).result)
          (pollCall (newPoller args.repository id)
            ((newPoller args.repository id).WaitAndPollContext env)) := rfl

theorem pollAndPrint_calls (sortSlice : (Event → Event → Bool) → List Event → List Event)
    (args : SearchArgs) (id : String) (waits : List PollEnv) (r : SearchReturn)
    (h : pollAndPrint sortSlice args id waits = some r) :
    ∀ c ∈ r.calls, c = Call.poll args.repository id := by
  cases waits with
  | nil => simp [pollAndPrint] at h
  | cons env rest =>
    rw [pollAndPrint_cons] at h
    split at h
    · simp only [Option.some.injEq] at h
      subst h
      exact pollCall_poll (newPoller args.repository id) _
    · obtain ⟨polls, hp, hall⟩ := untilDone_calls sortSlice args.live rest _ _ _ _ r h
      intro c hc
      rw [hp] at hc
      rcases List.mem_append.mp hc with hc | hc
      · exact pollCall_poll (newPoller args.repository id) _ c hc
      · have := hall c hc
        rwa [(waitAndPoll_poller _ env).1, (waitAndPoll_poller _ env).2] at this

theorem cancelled_of_already (q : queryJobPoller) (env : PollEnv) (c : Int)
    (hc : env.cancelAt = some c) (hle : c ≤ env.now) (ht : env.timerFirst = false) :
    q.cancelled env = true := by
  have hw : env.now ≤ q.wakeAt env := by
    unfold queryJobPoller.wakeAt
    omega
  unfold queryJobPoller.cancelled
  rw [hc]
  simp only [ht, Bool.not_false, Bool.and_true, Bool.or_eq_true, decide_eq_true_eq]
  rw [max_eq_right hle]
  omega

theorem waitAndPoll_continues (live : Bool) (q : queryJobPoller) (env : PollEnv)
    (hend : endsRun live env = true) (herr : (q.WaitAndPollContext env).err = none) :
    live = false ∧ (q.WaitAndPollContext env).result.Done = true := by
  have hresp := waitAndPoll_err_none q env herr
  have hnc : q.cancelled env = false := by
    cases hcan : q.cancelled env with
    | false => rfl
    | true =>
      rw [waitAndPoll_cancelled q env hcan] at herr
      exact Option.noConfusion herr
  have hres : (q.WaitAndPollContext env).result = env.response.1 := by
    unfold queryJobPoller.WaitAndPollContext
    rw [if_neg (by simp [hnc])]
    split <;> rename_i hr <;> rw [hr]
  unfold endsRun at hend
  simp only [hresp, Option.isSome_none, Bool.false_or, Bool.or_eq_true, Bool.and_eq_true,
    Bool.not_eq_true', Option.isNone_iff_eq_none] at hend
  rcases hend with hend | hend
  · cases hc : env.cancelAt with
    | none => simp [hc] at hend
    | some c =>
      simp only [hc, Bool.and_eq_true, decide_eq_true_eq, Bool.not_eq_true'] at hend
      rw [cancelled_of_already q env c hc hend.1 hend.2] at hnc
      exact Bool.noConfusion hnc
  · exact ⟨hend.1.1, hres ▸ hend.2⟩

theorem liveLoop_returns (sortSlice : (Event → Event → Bool) → List Event → List Event)
    (waits : List PollEnv) (q : queryJobPoller) (printer : Printer) (calls : List Call)
    (h : ∃ w ∈ waits, endsRun true w = true) :
    (liveLoop sortSlice waits q printer calls).isSome = true := by
  induction waits generalizing q printer calls with
  | nil => simp at h
  | cons env rest ih =>
    unfold liveLoop
    split
    · rfl
    · rename_i herr
      apply ih
      obtain ⟨w, hw, hend⟩ := h
      rcases List.mem_cons.mp hw with rfl | hw
      · exact absurd (waitAndPoll_continues true q _ hend herr).1 (by simp)
      · exact ⟨w, hw, hend⟩

theorem untilDone_done (sortSlice : (Event → Event → Bool) → List Event → List Event)
    (waits : List PollEnv) (q : queryJobPoller) (result : QueryResult)
    (printer : Printer) (calls : List Call) (hd : result.Done = true) :
    (untilDone sortSlice false waits q result printer calls).isSome = true := by
  cases waits <;> simp [untilDone, hd, afterDone]

theorem untilDone_returns (sortSlice : (Event → Event → Bool) → List Event → List Event)
    (live : Bool) (waits : List PollEnv) (q : queryJobPoller) (result : QueryResult)
    (printer : Printer) (calls : List Call) (h : ∃ w ∈ waits, endsRun live w = true) :
    (untilDone sortSlice live waits q result printer calls).isSome = true := by
  induction waits generalizing q result calls with
  | nil => simp at h
  | cons env rest ih =>
    unfold untilDone
    split
    · unfold afterDone
      split
      · rename_i hl
        subst hl
        exact liveLoop_returns sortSlice _ q _ calls h
      · rfl
    · split
      · rfl
      · rename_i herr
        obtain ⟨w, hw, hend⟩ := h
        rcases List.mem_cons.mp hw with rfl | hw
        · have hc := waitAndPoll_continues live q _ hend herr
          rw [hc.1]
          exact untilDone_done sortSlice rest _ _ printer _ hc.2
        · exact ih _ _ _ ⟨w, hw, hend⟩

theorem pollAndPrint_returns (sortSlice : (Event → Event → Bool) → List Event → List Event)
    (args : SearchArgs) (id : String) (waits : List PollEnv)
    (h : ∃ w ∈ waits, endsRun args.live w = true) :
    (pollAndPrint sortSlice args id waits).isSome = true := by
  cases waits with
  | nil => simp at h
  | cons env rest =>
    rw [pollAndPrint_cons]
    split
    · rfl
    · rename_i herr
      obtain ⟨w, hw, hend⟩ := h
      rcases List.mem_cons.mp hw with rfl | hw
      · have hc := waitAndPoll_continues args.live _ _ hend herr
        rw [hc.1]
        exact untilDone_done sortSlice rest _ _ _ _ hc.2
      · exact untilDone_returns sortSlice args.live rest _ _ _ _ ⟨w, hw, hend⟩

/-- C8: if `Create` fails the function returns its error and has issued no
poll and no delete; if `Create` returned a job id then, whenever the function
returns, the job-control calls are the create, then polls of that job only,
then one delete of that job as the last call; the error `Delete` returns
changes nothing of what the function returns; and the function does return
on each exit path: once a poll fails, once a call finds the context
cancelled, and outside live mode once a poll that cannot be cancelled returns
a snapshot that is done. -/
theorem searchRun_cleanup (sortSlice : (Event → Event → Bool) → List Event → List Event)
    (args : SearchArgs) (env : SearchEnv) :
    (∀ e, env.create = Except.error e →
      searchRun sortSlice args env =
        some { err := some e
               calls := [Call.create args.repository
                 ⟨args.queryString, args.start, args.end_, args.live⟩]
               printer := none }) ∧
    (∀ id r, env.create = Except.ok id → searchRun sortSlice args env = some r →
      ∃ polls, r.calls =
          Call.create args.repository ⟨args.queryString, args.start, args.end_, args.live⟩ ::
            (polls ++ [Call.delete args.repository id]) ∧
        ∀ c ∈ polls, c = Call.poll args.repository id) ∧
    (∀ d, searchRun sortSlice args { env with deleteErr := d } = searchRun sortSlice args env) ∧
    (∀ id, env.create = Except.ok id → (∃ w ∈ env.waits, endsRun args.live w = true) →
      (searchRun sortSlice args env).isSome = true) := by
  refine ⟨?_, ?_, fun d => rfl, ?_⟩
  · intro e he
    unfold searchRun
    rw [he]
  · intro id r hid hr
    unfold searchRun at hr
    rw [hid] at hr
    simp only at hr
    cases hp : pollAndPrint sortSlice args id env.waits with
    | none => rw [hp] at hr; exact Option.noConfusion hr
    | some r' =>
      rw [hp] at hr
      simp only [Option.some.injEq] at hr
      subst hr
      exact ⟨r'.calls, rfl, pollAndPrint_calls sortSlice args id env.waits r' hp⟩
  · intro id hid hw
    have := pollAndPrint_returns sortSlice args id env.waits hw
    unfold searchRun
    rw [hid]
    simp only
    cases hp : pollAndPrint sortSlice args id env.waits with
    | none => rw [hp] at this; exact absurd this (by simp)
    | some r' => rfl

/-! ## Concrete runs -/

/-- The timestamps 300, 100, 200 come out as 100, 200, 300. -/
theorem print_timestamp_order_witness :
    (∀ e ∈ snapshot300.Events, (timestampOf e).isSome = true) ∧
    ((newEventListPrinter defaultFmt).emitted insertionSort snapshot300).filterMap timestampOf =
      [100, 200, 300] ∧
    ((newEventListPrinter defaultFmt).emitted insertionSort snapshot300).Perm
      snapshot300.Events :=
  ⟨by decide,
   (print_timestamp_order insertionSort insertionSort_spec (newEventListPrinter defaultFmt)
      snapshot300 (by decide) (by decide) (by decide)).2.2.1.trans (by decide),
   (print_timestamp_order insertionSort insertionSort_spec (newEventListPrinter defaultFmt)
      snapshot300 (by decide) (by decide) (by decide)).1⟩

/-- C2 on the code: of an event with a timestamp followed by one without,
the one without is emitted first. -/
theorem print_missing_timestamp_last_counterexample :
    (newEventListPrinter defaultFmt).emitted insertionSort snapshotMixed =
      [[("msg", Value.str "a")], [("@timestamp", Value.num 100)]] ∧
    ¬ ((newEventListPrinter defaultFmt).emitted insertionSort snapshotMixed).Pairwise
      (fun a b => timestampOf a = none → timestampOf b = none) := by
  constructor
  · decide
  · decide

/-- The order of that snapshot, from the general statement. -/
theorem print_missing_timestamp_first_witness :
    ((newEventListPrinter defaultFmt).emitted insertionSort snapshotMixed).Pairwise
      (fun a b => timestampOf b = none → timestampOf a = none) :=
  print_missing_timestamp_first insertionSort insertionSort_spec _ snapshotMixed

/-- The format string of the help text and what it compiles to. -/
theorem newEventListPrinter_compiles_witness :
    wellShaped [] [⟨"@timestamp".data, some "-40".data, " ".data⟩, ⟨"@rawstring".data, none, []⟩] ∧
    formatOf [] [⟨"@timestamp".data, some "-40".data, " ".data⟩, ⟨"@rawstring".data, none, []⟩] =
      "\x7b@timestamp:-40\x7d \x7b@rawstring\x7d" ∧
    (newEventListPrinter "\x7b@timestamp:-40\x7d \x7b@rawstring\x7d").fmt = "%-40s %s" ∧
    (newEventListPrinter "\x7b@timestamp:-40\x7d \x7b@rawstring\x7d").printFields =
      ["@timestamp", "@rawstring"] := by
  have hw : wellShaped [] [⟨"@timestamp".data, some "-40".data, " ".data⟩,
      ⟨"@rawstring".data, none, []⟩] := by decide
  have hf : formatOf [] [⟨"@timestamp".data, some "-40".data, " ".data⟩,
      ⟨"@rawstring".data, none, []⟩] = "\x7b@timestamp:-40\x7d \x7b@rawstring\x7d" := by decide
  have := newEventListPrinter_compiles [] _ hw
  rw [hf] at this
  exact ⟨hw, hf, this.1.trans (by decide), this.2.trans (by decide)⟩

/-- C5 on the code: the format string `%s` has no placeholder; it is the
template as it stands, with one slot, and there is no print field. -/
theorem template_slots_counterexample :
    (newEventListPrinter "%s").fmt = "%s" ∧
    slots (newEventListPrinter "%s").fmt = 1 ∧
    (newEventListPrinter "%s").printFields.length = 0 := by
  decide

/-- Two slots and two print fields for the format string of the help text. -/
theorem template_slots_eq_printFields_witness :
    slots (newEventListPrinter "\x7b@timestamp:-40\x7d \x7b@rawstring\x7d").fmt = 2 ∧
    (newEventListPrinter "\x7b@timestamp:-40\x7d \x7b@rawstring\x7d").printFields.length = 2 :=
  ⟨(template_slots_eq_printFields "\x7b@timestamp:-40\x7d \x7b@rawstring\x7d"
      (by decide)).1.trans (by decide), by decide⟩

/-- C1 on the code: a fresh printer prints a snapshot with the fields x, y
and then one with the fields y, z; whatever the order in which `range` yields
the keys of either event, `columns` ends with y twice. -/
theorem aggregate_columns_repeat :
    ((newAggregatePrinter.print (aggregateSnapshot [("x", Value.num 1), ("y", Value.num 2)])).print
      (aggregateSnapshot [("y", Value.num 3), ("z", Value.num 4)])).columns = ["x", "y", "y", "z"] ∧
    ((newAggregatePrinter.print (aggregateSnapshot [("y", Value.num 2), ("x", Value.num 1)])).print
      (aggregateSnapshot [("y", Value.num 3), ("z", Value.num 4)])).columns = ["y", "x", "y", "z"] ∧
    ((newAggregatePrinter.print (aggregateSnapshot [("x", Value.num 1), ("y", Value.num 2)])).print
      (aggregateSnapshot [("z", Value.num 4), ("y", Value.num 3)])).columns = ["x", "y", "z", "y"] ∧
    ((newAggregatePrinter.print (aggregateSnapshot [("y", Value.num 2), ("x", Value.num 1)])).print
      (aggregateSnapshot [("z", Value.num 4), ("y", Value.num 3)])).columns = ["y", "x", "z", "y"] := by
  decide

/-- C7 on the code: the first snapshot with the one event count = 41 is
written as the value alone; the next snapshot, with the one event count = 42,
finds `columns` grown to count, count and is written as a table with that
header. -/
theorem aggregate_scalar_second_render :
    (newAggregatePrinter.print (aggregateSnapshot [("count", Value.num 41)])) =
      { w := [Write.fprintln (some (Value.num 41))], columns := ["count"] } ∧
    ((newAggregatePrinter.print (aggregateSnapshot [("count", Value.num 41)])).print
      (aggregateSnapshot [("count", Value.num 42)])) =
      { w := [Write.fprintln (some (Value.num 41)),
              Write.table ["count", "count"]
                [[Str.sprint (some (Value.num 42)), Str.sprint (some (Value.num 42))]],
              Write.newline]
        columns := ["count", "count"] } := by
  decide

/-- C9 on the code: a snapshot reports `PollAfter = 9223372036855`; that many
milliseconds are more nanoseconds than an `int64` holds, the product of line
200 wraps to a negative duration, `nextPoll` lies before the time of the poll
and the next call polls at once. -/
theorem waitAndPoll_backoff_counterexample :
    ((newPoller "repo" "job").WaitAndPollContext
      (pollOk 1000 none (pollAfterSnapshot 9223372036855))).polledAt = some 1000 ∧
    ((newPoller "repo" "job").WaitAndPollContext
      (pollOk 1000 none (pollAfterSnapshot 9223372036855))).poller.nextPoll =
        1000 - 9223372036854551616 ∧
    ((newPoller "repo" "job").WaitAndPollContext
      (pollOk 1000 none (pollAfterSnapshot 9223372036855))).poller.nextPoll ≠
        1000 + 9223372036855 * 1000000 ∧
    ((((newPoller "repo" "job").WaitAndPollContext
      (pollOk 1000 none (pollAfterSnapshot 9223372036855))).poller).WaitAndPollContext
        (pollOk 1000 none (pollAfterSnapshot 500))).polledAt = some 1000 := by
  decide

/-- A poll at 1000 ns that reads 500 ms, then a call cancelled during its wait. -/
theorem waitAndPoll_backoff_witness :
    ((newPoller "repo" "job").WaitAndPollContext
      (pollOk 1000 none (pollAfterSnapshot 500))).poller.nextPoll = 1000 + 500 * 1000000 ∧
    (((newPoller "repo" "job").WaitAndPollContext
      (pollOk 1000 none (pollAfterSnapshot 500))).poller.WaitAndPollContext
        (pollOk 2000 (some 3000) (pollAfterSnapshot 500))) =
      { poller := ⟨"repo", "job", 500001000⟩, result := QueryResult.zero,
        err := some Err.canceled, polledAt := none } :=
  ⟨(waitAndPoll_backoff (newPoller "repo" "job") (pollOk 1000 none (pollAfterSnapshot 500))
      (pollAfterSnapshot 500) rfl (by decide) (by decide)).2.2.2.1.trans (by decide),
   ((waitAndPoll_backoff (newPoller "repo" "job") (pollOk 1000 none (pollAfterSnapshot 500))
      (pollAfterSnapshot 500) rfl (by decide) (by decide)).2.2.2.2
      (pollOk 2000 (some 3000) (pollAfterSnapshot 500)) (by decide)).2 3000 rfl
      (by decide) |>.trans (by decide)⟩

/-- Two identities, then the same two and a third. -/
theorem print_dedup_across_calls_witness :
    ((newEventListPrinter defaultFmt).emitted insertionSort snapshotAB).map stringId =
      [some "b", some "a"] ∧
    (((newEventListPrinter defaultFmt).print insertionSort snapshotAB).emitted insertionSort
      snapshotABC).map stringId = [some "c"] ∧
    ((newEventListPrinter defaultFmt).emitted insertionSort snapshotAB ++
        ((newEventListPrinter defaultFmt).print insertionSort snapshotAB).emitted insertionSort
          snapshotABC).countP (fun e => stringId e == some "a") =
      (if "a" ∈ snapshotABC.Events.filterMap stringId then 1 else 0) :=
  ⟨by decide, by decide,
   (print_dedup_across_calls insertionSort insertionSort_spec defaultFmt snapshotAB snapshotABC
      (by decide) (by decide) (by decide) "a").2.2.1⟩

/-- An event without identity, printed once a call and three times in three. -/
theorem print_noId_always_witness :
    stringId [("msg", Value.str "a")] = none ∧
    ((newEventListPrinter defaultFmt).emitted insertionSort snapshotMixed).count
      [("msg", Value.str "a")] = snapshotMixed.Events.count [("msg", Value.str "a")] ∧
    (eventListPrinter.emittedRepeat insertionSort snapshotMixed 3
      (newEventListPrinter defaultFmt)).count [("msg", Value.str "a")] = 3 :=
  ⟨by decide,
   (print_noId_always insertionSort insertionSort_spec (newEventListPrinter defaultFmt)
      snapshotMixed [("msg", Value.str "a")] (by decide)).1,
   ((print_noId_always insertionSort insertionSort_spec (newEventListPrinter defaultFmt)
      snapshotMixed [("msg", Value.str "a")] (by decide)).2.1 3).trans (by decide)⟩

set_option maxRecDepth 8000 in
/-- The exit paths of the run: `Create` fails; the snapshot is done and the
mode is not live; a poll fails in live mode; the context is cancelled during
the wait that follows a snapshot that is not done. -/
theorem searchRun_cleanup_witness :
    (searchRun insertionSort sampleArgs ⟨Except.error (Err.transport "401"), [], none⟩).map
        (fun r => (r.err, r.calls)) =
      some (some (Err.transport "401"), [Call.create "repo" ⟨"count()", "10m", "", false⟩]) ∧
    (searchRun insertionSort sampleArgs
        ⟨Except.ok "job", [pollOk 0 none doneSnapshot], some (Err.transport "gone")⟩).map
        (fun r => (r.err, r.calls)) =
      some (none, [Call.create "repo" ⟨"count()", "10m", "", false⟩, Call.poll "repo" "job",
        Call.delete "repo" "job"]) ∧
    (searchRun insertionSort liveArgs
        ⟨Except.ok "job", [pollOk 0 none doneSnapshot, pollFails 1000000000], none⟩).map
        (fun r => (r.err, r.calls)) =
      some (some (Err.transport "EOF"), [Call.create "repo" ⟨"count()", "10m", "", true⟩,
        Call.poll "repo" "job", Call.poll "repo" "job", Call.delete "repo" "job"]) ∧
    (searchRun insertionSort sampleArgs
        ⟨Except.ok "job", [pollOk 0 none (pollAfterSnapshot 500),
          pollOk 1000 (some 2000) doneSnapshot], none⟩).map (fun r => (r.err, r.calls)) =
      some (some Err.canceled, [Call.create "repo" ⟨"count()", "10m", "", false⟩,
        Call.poll "repo" "job", Call.delete "repo" "job"]) ∧
    (searchRun insertionSort liveArgs
        ⟨Except.ok "job", [pollOk 0 none doneSnapshot, pollFails 1000000000], none⟩).isSome =
      true :=
  ⟨by decide, by decide, by decide, by decide,
   (searchRun_cleanup insertionSort liveArgs
      ⟨Except.ok "job", [pollOk 0 none doneSnapshot, pollFails 1000000000], none⟩).2.2.2 "job" rfl
      ⟨pollFails 1000000000, by simp, by decide⟩⟩

end HumioSearch
